import Mathlib

/-!
Verification of `src/app_model/backends/qt/_qaction.py`.

The file shallowly embeds the three action adapter classes of the module
(`QCommandAction`, `QCommandRuleAction`, `QMenuItemAction`) together with the
process-wide instance cache of `QMenuItemAction`.  Python object identity is
modelled by natural-number instance ids handed out by an allocation counter;
the mutable widget state of an action is an explicit `ActionState` record, and
the class-level cache plus the live instances form an explicit `World` record.
Fallible Python calls are modelled with an explicit error channel: a stateful
operation returns its (partially mutated, as in Python) state together with
`Option PyError`, where `some e` means the call raised `e`.
-/

/-- Python exception values relevant to this module: `NameError` (raised by
expression evaluation when a context variable is missing) and any other
exception. -/
inductive PyError where
  | nameError (n : String)
  | other (msg : String)
deriving DecidableEq

/-- Modelled from the spec: a deferred result ("handle to an in-flight or
completed operation whose outcome (value or failure) is retrieved by a
blocking resolution call").  `result` is that blocking call. -/
structure Future (α : Type) where
  result : Except PyError α

/-- An evaluation context: a mapping from context-variable names to boolean
values (`Mapping[str, object]` restricted to the booleans the expressions of
this module consume). -/
abbrev Ctx := List (String × Bool)

/-- Lookup of a context variable by name. -/
def ctxLookup (ctx : Ctx) (n : String) : Option Bool :=
  (ctx.find? (fun p => p.1 == n)).map (fun p => p.2)

/-- Modelled from the spec: the external expression engine, "a small
tagged-variant expression tree (literal, variable lookup, boolean
combinators) with a pure evaluate(context) -> bool operation"; a name that is
missing from the context fails evaluation (Python `NameError`).  The error
value of `Expr.eval` is the missing variable's name. -/
inductive Expr where
  | lit (b : Bool)
  | name (n : String)
  | and (a b : Expr)
  | or (a b : Expr)
  | not (a : Expr)
deriving DecidableEq

/-- Evaluation of an expression against a context, with Python's
short-circuit semantics; a missing name is the only failure mode. -/
def Expr.eval : Expr → Ctx → Except String Bool
  | .lit b, _ => .ok b
  | .name n, ctx =>
    match ctxLookup ctx n with
    | some b => .ok b
    | none => .error n
  | .and a b, ctx => do
    let x ← a.eval ctx
    if x then b.eval ctx else pure false
  | .or a b, ctx => do
    let x ← a.eval ctx
    if x then pure true else b.eval ctx
  | .not a, ctx => do
    let x ← a.eval ctx
    pure (!x)

/-- Modelled from the spec: a toggle rule — "either a boolean expression, or a
pair of (boolean expression, a zero-argument current-value provider function)".
The provider is a Python callable, so invoking it may raise. -/
structure ToggleRule where
  condition : Option Expr
  get_current : Option (Unit → Except PyError Bool)

/-- The `toggled` field of a command rule is either a bare expression or a
`ToggleRule` (the `Union` the source tests with `isinstance`). -/
inductive ToggledType where
  | expr (e : Expr)
  | rule (t : ToggleRule)

/-- Modelled from the spec: a command-rule descriptor — "identifier (string),
title, optional short title, optional icon, optional tooltip/status text,
optional toggle rule", plus the optional enablement expression consumed by
`update_from_context`.  String attributes use Python truthiness: the empty
string means absent. -/
structure CommandRule where
  id : String
  title : String
  short_title : String
  icon : Option String
  tooltip : String
  status_tip : String
  enablement : Option Expr
  toggled : Option ToggledType

/-- Modelled from the spec: a menu-item descriptor — "wraps a command
descriptor plus an optional `when` boolean expression controlling
visibility". -/
structure MenuItem where
  command : CommandRule
  when : Option Expr

/-- Modelled from the spec: the command registry: `execute_command(id)`
returns a deferred result.  The embedding of the call additionally returns
the one-element invocation log so that invocation counts can be stated. -/
structure CommandsService where
  run : String → Future Unit

/-- One call of `commands.execute_command(id)`: logs the id it was invoked
with and returns the deferred result supplied by the service. -/
def CommandsService.execute_command (s : CommandsService) (command_id : String) :
    List String × Future Unit :=
  ([command_id], s.run command_id)

/-- Modelled from the spec: the application handle — `objId` models Python
object identity `id(app)`, `keybindings` the keybinding lookup, `commands`
the command-execution service, and `inject` the dependency-injection
resolver's `inject(callable, on_unresolved_required_args="ignore")`, which
wraps a provider into a callable that is safe to invoke.  String-name lookup
(`Application.get_or_create`) is the identity on handles, so handles are
passed directly. -/
structure Application where
  objId : Nat
  name : String
  keybindings : String → Option String
  commands : CommandsService
  inject : (Unit → Except PyError Bool) → Unit → Except PyError Bool

/-- The toolkit-visible mutable state of one action widget. -/
structure ActionState where
  objectName : String
  text : String
  shortcut : Option String
  icon : Option String
  tooltip : String
  status_tip : String
  checkable : Bool
  checked : Bool
  enabled : Bool
  visible : Bool
deriving DecidableEq

/-- A freshly allocated QAction: enabled and visible, not checkable, not
checked, with no name, text, shortcut or icon (the toolkit defaults). -/
def ActionState.fresh : ActionState :=
  { objectName := "", text := "", shortcut := none, icon := none, tooltip := "",
    status_tip := "", checkable := false, checked := false, enabled := true,
    visible := true }

/-- Embedding of `QCommandAction.__init__` (lines 44-56): store the command id
as the object name and, when the keybinding service has a binding for it,
apply it as the shortcut.  (The `triggered` signal connection is embodied by
`QCommandAction.on_triggered` below.) -/
def QCommandAction.init (command_id : String) (app : Application) : ActionState :=
  let a := { ActionState.fresh with objectName := command_id }
  match app.keybindings command_id with
  | some kb => { a with shortcut := some kb }
  | none => a

/-- Embedding of `QCommandAction._on_triggered` (lines 58-62): invoke
`execute_command` with the bound command id and immediately force the
deferred result; the invocation log and the outcome (value or raised
exception) are returned. -/
def QCommandAction.on_triggered (command_id : String) (app : Application) :
    List String × Except PyError Unit :=
  let r := CommandsService.execute_command app.commands command_id
  (r.1, r.2.result)

/-- Embedding of `QCommandRuleAction._refresh` (lines 113-119): when `toggled`
is a `ToggleRule` carrying a `get_current` provider, resolve the provider
through the injection store, call it and set the checked state from its
result; a raise from the provider propagates with the state unchanged. -/
def QCommandRuleAction.refresh (rule : CommandRule) (app : Application)
    (a : ActionState) : ActionState × Option PyError :=
  match rule.toggled with
  | some (.rule t) =>
    match t.get_current with
    | some g =>
      match app.inject g () with
      | .ok b => ({ a with checked := b }, none)
      | .error e => (a, some e)
    | none => (a, none)
  | _ => (a, none)

/-- Embedding of `QCommandRuleAction.__init__` (lines 78-100): delegate to the
base initializer, apply title (short title only when requested and nonempty),
icon, tooltip and status tip, and when a toggle rule is declared mark the
action checkable and perform the initial refresh.  Mutations performed before
a raise persist, as in Python. -/
def QCommandRuleAction.init (rule : CommandRule) (app : Application)
    (use_short_title : Bool) : ActionState × Option PyError :=
  let a := QCommandAction.init rule.id app
  let a := if use_short_title && !(rule.short_title == "") then
             { a with text := rule.short_title }
           else { a with text := rule.title }
  let a := match rule.icon with
           | some ic => { a with icon := some ic }
           | none => a
  let a := if rule.tooltip == "" then a else { a with tooltip := rule.tooltip }
  let a := if rule.status_tip == "" then a
           else { a with status_tip := rule.status_tip }
  if rule.toggled.isSome then
    QCommandRuleAction.refresh rule app { a with checkable := true }
  else (a, none)

/-- The toggled branch of `QCommandRuleAction.update_from_context` (lines
105-111): a bare expression, or the condition of a `ToggleRule` when present,
is evaluated and sets the checked state; a provider-only `ToggleRule` does
nothing here.  A `NameError` from evaluation propagates. -/
def QCommandRuleAction.updateToggled (rule : CommandRule) (a : ActionState)
    (ctx : Ctx) : ActionState × Option PyError :=
  match rule.toggled with
  | none => (a, none)
  | some (.expr e) =>
    match e.eval ctx with
    | .ok b => ({ a with checked := b }, none)
    | .error n => (a, some (.nameError n))
  | some (.rule t) =>
    match t.condition with
    | some c =>
      match c.eval ctx with
      | .ok b => ({ a with checked := b }, none)
      | .error n => (a, some (.nameError n))
    | none => (a, none)

/-- Embedding of `QCommandRuleAction.update_from_context` (lines 102-111): set
enabled from the enablement expression (true when absent), then handle the
toggled state.  A raise from the enablement evaluation leaves the state
untouched and skips the toggled branch, as in Python. -/
def QCommandRuleAction.update_from_context (rule : CommandRule) (a : ActionState)
    (ctx : Ctx) : ActionState × Option PyError :=
  match rule.enablement with
  | some e =>
    match e.eval ctx with
    | .ok b => QCommandRuleAction.updateToggled rule { a with enabled := b } ctx
    | .error n => (a, some (.nameError n))
  | none => QCommandRuleAction.updateToggled rule { a with enabled := true } ctx

/-- Embedding of `QMenuItemAction.update_from_context` (lines 178-181): first
the command-rule update (enabled/checked), then visible from the `when`
expression (true when absent).  A raise from the first part skips the
visibility update, as in Python. -/
def QMenuItemAction.update_from_context (mi : MenuItem) (a : ActionState)
    (ctx : Ctx) : ActionState × Option PyError :=
  match QCommandRuleAction.update_from_context mi.command a ctx with
  | (a1, some e) => (a1, some e)
  | (a1, none) =>
    match mi.when with
    | some e =>
      match e.eval ctx with
      | .ok b => ({ a1 with visible := b }, none)
      | .error n => (a1, some (.nameError n))
    | none => ({ a1 with visible := true }, none)

/-- A cache key: (application identity, menu-item hash) — line 141. -/
abbrev CacheKey := Nat × Nat

/-- The class-level cache `QMenuItemAction._cache` (line 129), as an
association list from key to instance id. -/
abbrev Cache := List (CacheKey × Nat)

/-- Dictionary lookup `key in cache` / `cache[key]`. -/
def cacheLookup (c : Cache) (k : CacheKey) : Option Nat :=
  (c.find? (fun e => decide (e.1 = k))).map (fun e => e.2)

/-- Dictionary `cache.pop(key, None)`: remove the entry, tolerating an absent
key. -/
def cachePop (c : Cache) (k : CacheKey) : Cache :=
  c.filter (fun e => decide (e.1 ≠ k))

/-- Dictionary assignment `cache[key] = v`. -/
def cacheInsert (c : Cache) (k : CacheKey) (v : Nat) : Cache :=
  (k, v) :: cachePop c k

/-- The per-instance state of a `QMenuItemAction`: the widget state, the
`_initialized` flag (`getattr` default: false), the stored `_menu_item`, and
the key captured by the two destruction hooks registered at initialization
(absent until they are registered). -/
structure MenuInstance where
  state : ActionState
  initialized : Bool
  menu_item : Option MenuItem
  hookKey : Option CacheKey

/-- A freshly allocated, not yet initialized instance (what
`super().__new__(cls)` yields). -/
def MenuInstance.blank : MenuInstance :=
  { state := ActionState.fresh, initialized := false, menu_item := none,
    hookKey := none }

/-- The live instances, as an association list from instance id to state. -/
abbrev Heap := List (Nat × MenuInstance)

/-- Read an instance from the heap. -/
def heapGet (h : Heap) (i : Nat) : Option MenuInstance :=
  (h.find? (fun e => decide (e.1 = i))).map (fun e => e.2)

/-- Write an instance to the heap. -/
def heapSet (h : Heap) (i : Nat) (x : MenuInstance) : Heap :=
  (i, x) :: h.filter (fun e => decide (e.1 ≠ i))

/-- Deallocate an instance. -/
def heapRemove (h : Heap) (i : Nat) : Heap :=
  h.filter (fun e => decide (e.1 ≠ i))

/-- The process-wide state: the class-level cache, the allocation counter
handing out object identities, and the live instances. -/
structure World where
  cache : Cache
  nextId : Nat
  heap : Heap

/-- Well-formedness of a world: every cached instance id has already been
allocated (is below the allocation counter). -/
def World.WF (w : World) : Prop :=
  ∀ k i, cacheLookup w.cache k = some i → i < w.nextId

/-- Embedding of `QMenuItemAction.__new__` (lines 131-148): compute the key
`(id(app), hash(menu_item))`; on a cache hit with caching enabled return the
cached instance unchanged; otherwise allocate a fresh instance and, when
caching is enabled, register it in the cache before initialization runs.
`hashMI` stands for Python's `hash` on menu items. -/
def QMenuItemAction.new (hashMI : MenuItem → Nat) (w : World) (mi : MenuItem)
    (app : Application) (cache : Bool) : Nat × World :=
  let key := (app.objId, hashMI mi)
  match cache, cacheLookup w.cache key with
  | true, some i => (i, w)
  | true, none =>
    let i := w.nextId
    (i, { cache := cacheInsert w.cache key i, nextId := i + 1,
          heap := heapSet w.heap i MenuInstance.blank })
  | false, _ =>
    let i := w.nextId
    (i, { cache := w.cache, nextId := i + 1,
          heap := heapSet w.heap i MenuInstance.blank })

/-- The final statement of `QMenuItemAction.__init__` (lines 175-176):
`update_from_context({})` on the stored menu item, with `NameError`
suppressed; state mutations performed before a raise persist. -/
def QMenuItemAction.emptyCtxUpdate (w : World) (i : Nat) : World × Option PyError :=
  match heapGet w.heap i with
  | none => (w, none)
  | some inst =>
    match inst.menu_item with
    | none => (w, none)
    | some mi =>
      let r := QMenuItemAction.update_from_context mi inst.state []
      let w1 := { w with heap := heapSet w.heap i { inst with state := r.1 } }
      match r.2 with
      | some (.nameError _) => (w1, none)
      | some e => (w1, some e)
      | none => (w1, none)

/-- Embedding of `QMenuItemAction.__init__` (lines 150-176): when the
`_initialized` flag is not yet set, run the body (command-rule initialization
from the menu item's command, store the menu item, capture the cache key for
the two destruction hooks, set the flag); otherwise skip it.  Every call then
performs the empty-context update with `NameError` suppressed.  A raise from
the body propagates with the mutations made so far retained. -/
def QMenuItemAction.init (hashMI : MenuItem → Nat) (w : World) (i : Nat)
    (mi : MenuItem) (app : Application) : World × Option PyError :=
  match heapGet w.heap i with
  | none => (w, some (.other "RuntimeError"))
  | some inst =>
    if inst.initialized then
      QMenuItemAction.emptyCtxUpdate w i
    else
      let r := QCommandRuleAction.init mi.command app false
      match r.2 with
      | some e =>
        ({ w with heap := heapSet w.heap i { inst with state := r.1 } }, some e)
      | none =>
        let key := (app.objId, hashMI mi)
        let inst1 : MenuInstance :=
          { state := r.1, initialized := true, menu_item := some mi,
            hookKey := some key }
        QMenuItemAction.emptyCtxUpdate { w with heap := heapSet w.heap i inst1 } i

/-- The outcome of a full Python construction: the instance returned by
`__new__`, the resulting world, and the exception propagating out of
`__init__`, if any. -/
structure ConstructResult where
  inst : Nat
  world : World
  err : Option PyError

/-- The full Python construction `QMenuItemAction(menu_item, app, cache=...)`:
`__new__` followed by `__init__` on the returned instance.  An exception from
`__init__` propagates with all state mutations retained (in particular the
cache insertion made by `__new__` is not rolled back). -/
def QMenuItemAction.construct (hashMI : MenuItem → Nat) (w : World)
    (mi : MenuItem) (app : Application) (cache : Bool) : ConstructResult :=
  let r := QMenuItemAction.new hashMI w mi app cache
  let r2 := QMenuItemAction.init hashMI r.2 r.1 mi app
  { inst := r.1, world := r2.1, err := r2.2 }

/-- The destruction hook registered on the action itself (line 166): firing of
`destroyed` pops the captured key from the class cache (tolerating absence)
and the instance is deallocated. -/
def QMenuItemAction.destroy (w : World) (i : Nat) : World :=
  match heapGet w.heap i with
  | none => w
  | some inst =>
    let c := match inst.hookKey with
             | some k => cachePop w.cache k
             | none => w.cache
    { cache := c, nextId := w.nextId, heap := heapRemove w.heap i }

/-- The destruction hook registered on the owning application (line 167): it
pops the same captured key from the class cache, tolerating absence. -/
def QMenuItemAction.appDestroyHook (w : World) (key : CacheKey) : World :=
  { w with cache := cachePop w.cache key }

/-! ### Concrete instances for concrete executions -/

/-- A concrete hash function standing in for Python `hash` on menu items. -/
def hash0 : MenuItem → Nat := fun _ => 0

/-- A concrete application handle whose commands all succeed and whose
injection store is the identity wrapper. -/
def app0 : Application :=
  { objId := 7, name := "app", keybindings := fun _ => none,
    commands := { run := fun _ => { result := Except.ok () } },
    inject := fun g => g }

/-- A concrete application handle whose commands all fail. -/
def appFail : Application :=
  { app0 with commands := { run := fun _ => { result := Except.error (.other "fail") } } }

/-- A plain command rule: no enablement, no toggle, no presentation extras. -/
def cmd0 : CommandRule :=
  { id := "cmd", title := "Cmd", short_title := "", icon := none, tooltip := "",
    status_tip := "", enablement := none, toggled := none }

/-- A plain menu item over `cmd0`. -/
def mi0 : MenuItem := { command := cmd0, when := none }

/-- The empty world: empty cache, no live instances, counter at zero. -/
def w0 : World := { cache := [], nextId := 0, heap := [] }

/-- A command rule toggled by the bare expression `x`. -/
def cmdC3 : CommandRule := { cmd0 with id := "c3", toggled := some (.expr (.name "x")) }

/-- A toggle rule with no condition and a provider returning true. -/
def tRuleProv : ToggleRule :=
  { condition := none, get_current := some (fun _ => Except.ok true) }

/-- A command rule with a provider-only toggle rule. -/
def cmdC8 : CommandRule := { cmd0 with id := "c8", toggled := some (.rule tRuleProv) }

/-- A menu item over the provider-only rule. -/
def miC9 : MenuItem := { command := cmdC8, when := none }

/-- The provider-only rule with its provider removed (toggle metadata kept). -/
def cmdProvB : CommandRule :=
  { cmdC8 with toggled := some (.rule { condition := none, get_current := none }) }

/-- A toggle rule whose provider raises. -/
def tRuleFail : ToggleRule :=
  { condition := none, get_current := some (fun _ => Except.error (.other "boom")) }

/-- A command rule whose construction-time refresh raises. -/
def cmdC10 : CommandRule := { cmd0 with id := "c10", toggled := some (.rule tRuleFail) }

/-- A menu item whose construction-time refresh raises. -/
def miC10 : MenuItem := { command := cmdC10, when := none }

/-- A command rule whose toggled expression references a missing variable. -/
def cmdC7 : CommandRule := { cmd0 with id := "c7", toggled := some (.expr (.name "x")) }

/-- A menu item with constant-false `when` over a command whose toggled
expression cannot be evaluated in the empty context. -/
def miC7 : MenuItem := { command := cmdC7, when := some (.lit false) }

/-- A menu item with constant-false `when` over a plain command. -/
def miC7ok : MenuItem := { command := cmd0, when := some (.lit false) }

/-- A menu item whose `when` references a missing variable. -/
def miC5 : MenuItem := { command := cmd0, when := some (.name "q") }

/-- The world after one cached construction of `mi0` in `w0`. -/
def wC2 : World := (QMenuItemAction.construct hash0 w0 mi0 app0 true).world

/-- The instance created by that construction. -/
def instC2 : MenuInstance := (heapGet wC2.heap 0).getD MenuInstance.blank

/-! ### Lemmas about cache and heap operations -/

theorem cacheLookup_pop (c : Cache) (k k' : CacheKey) :
    cacheLookup (cachePop c k) k' = if k' = k then none else cacheLookup c k' := by
  induction c with
  | nil => simp [cacheLookup, cachePop]
  | cons e c ih =>
    by_cases hek : e.1 = k <;> by_cases hek' : e.1 = k' <;>
      by_cases hk : k' = k <;>
      simp_all [cacheLookup, cachePop, List.filter_cons, List.find?_cons]

theorem cacheLookup_pop_self (c : Cache) (k : CacheKey) :
    cacheLookup (cachePop c k) k = none := by
  simpa using cacheLookup_pop c k k

theorem cacheLookup_insert_self (c : Cache) (k : CacheKey) (v : Nat) :
    cacheLookup (cacheInsert c k v) k = some v := by
  unfold cacheInsert cacheLookup
  rw [List.find?_cons_of_pos _ (by simp)]
  rfl

theorem cacheLookup_insert_ne (c : Cache) (k k' : CacheKey) (v : Nat)
    (h : k' ≠ k) :
    cacheLookup (cacheInsert c k v) k' = cacheLookup c k' := by
  have h2 := cacheLookup_pop c k k'
  rw [if_neg h] at h2
  unfold cacheInsert cacheLookup
  rw [List.find?_cons_of_neg _ (by simp [Ne.symm h])]
  exact h2

theorem heapGet_set_self (h : Heap) (i : Nat) (x : MenuInstance) :
    heapGet (heapSet h i x) i = some x := by
  unfold heapGet heapSet
  rw [List.find?_cons_of_pos _ (by simp)]
  rfl

/-! ### The only exception raised inside the update methods is a NameError -/

theorem updateToggled_err (rule : CommandRule) (a : ActionState) (ctx : Ctx)
    (m : String) :
    (QCommandRuleAction.updateToggled rule a ctx).2 ≠ some (.other m) := by
  rcases hrt : rule.toggled with _ | (e | t)
  · simp [QCommandRuleAction.updateToggled, hrt]
  · rcases he : e.eval ctx with n | b <;>
      simp [QCommandRuleAction.updateToggled, hrt, he]
  · rcases hc : t.condition with _ | ce
    · simp [QCommandRuleAction.updateToggled, hrt, hc]
    · rcases he : ce.eval ctx with n | b <;>
        simp [QCommandRuleAction.updateToggled, hrt, hc, he]

theorem rule_update_err (rule : CommandRule) (a : ActionState) (ctx : Ctx)
    (m : String) :
    (QCommandRuleAction.update_from_context rule a ctx).2 ≠ some (.other m) := by
  rcases hre : rule.enablement with _ | e
  · simpa [QCommandRuleAction.update_from_context, hre] using
      updateToggled_err rule { a with enabled := true } ctx m
  · rcases he : e.eval ctx with n | b
    · simp [QCommandRuleAction.update_from_context, hre, he]
    · simpa [QCommandRuleAction.update_from_context, hre, he] using
        updateToggled_err rule { a with enabled := b } ctx m

theorem menu_update_err (mi : MenuItem) (a : ActionState) (ctx : Ctx)
    (m : String) :
    (QMenuItemAction.update_from_context mi a ctx).2 ≠ some (.other m) := by
  have hru := rule_update_err mi.command a ctx m
  unfold QMenuItemAction.update_from_context
  rcases hr : QCommandRuleAction.update_from_context mi.command a ctx with ⟨a1, e1⟩
  rw [hr] at hru
  rcases e1 with _ | e
  · rcases hw : mi.when with _ | we
    · simp [hw]
    · rcases he : we.eval ctx with n | b <;> simp [hw, he]
  · simpa using hru

/-! ### Lemmas about the construction pipeline -/

theorem emptyCtxUpdate_no_raise (w : World) (i : Nat) :
    (QMenuItemAction.emptyCtxUpdate w i).2 = none := by
  unfold QMenuItemAction.emptyCtxUpdate
  rcases hg : heapGet w.heap i with _ | inst
  · rfl
  · rcases hm : inst.menu_item with _ | mi
    · simp [hm]
    · simp only [hm]
      rcases hr : (QMenuItemAction.update_from_context mi inst.state []).2 with _ | e
      · simp [hr]
      · rcases e with n | msg
        · simp [hr]
        · exact absurd hr (menu_update_err mi inst.state [] msg)

theorem emptyCtxUpdate_frame (w : World) (i : Nat) :
    ((QMenuItemAction.emptyCtxUpdate w i).1).cache = w.cache ∧
    ((QMenuItemAction.emptyCtxUpdate w i).1).nextId = w.nextId := by
  unfold QMenuItemAction.emptyCtxUpdate
  rcases hg : heapGet w.heap i with _ | inst
  · exact ⟨rfl, rfl⟩
  · rcases hm : inst.menu_item with _ | mi
    · simp [hm]
    · simp only [hm]
      rcases hr : (QMenuItemAction.update_from_context mi inst.state []).2 with _ | e
      · simp [hr]
      · rcases e with n | msg <;> simp [hr]

theorem emptyCtxUpdate_preserves (w : World) (i : Nat) (inst : MenuInstance)
    (h : heapGet w.heap i = some inst) :
    ∃ inst2, heapGet ((QMenuItemAction.emptyCtxUpdate w i).1).heap i = some inst2
      ∧ inst2.initialized = inst.initialized
      ∧ inst2.menu_item = inst.menu_item
      ∧ inst2.hookKey = inst.hookKey := by
  unfold QMenuItemAction.emptyCtxUpdate
  simp only [h]
  rcases hm : inst.menu_item with _ | mi
  · simp only [hm]
    exact ⟨inst, h, rfl, hm, rfl⟩
  · simp only [hm]
    rcases hr : (QMenuItemAction.update_from_context mi inst.state []).2 with _ | e
    · simp only [hr]
      exact ⟨_, heapGet_set_self _ _ _, rfl, rfl, rfl⟩
    · rcases e with n | msg <;> simp only [hr] <;>
        exact ⟨_, heapGet_set_self _ _ _, rfl, rfl, rfl⟩

theorem ruleInit_err_no_toggled (rule : CommandRule) (app : Application)
    (ust : Bool) (h : rule.toggled = none) :
    (QCommandRuleAction.init rule app ust).2 = none := by
  unfold QCommandRuleAction.init
  simp [h]

theorem init_frame (hashMI : MenuItem → Nat) (w : World) (i : Nat)
    (mi : MenuItem) (app : Application) :
    ((QMenuItemAction.init hashMI w i mi app).1).cache = w.cache ∧
    ((QMenuItemAction.init hashMI w i mi app).1).nextId = w.nextId := by
  unfold QMenuItemAction.init
  rcases hg : heapGet w.heap i with _ | inst
  · exact ⟨rfl, rfl⟩
  · simp only [hg]
    by_cases hi : inst.initialized
    · simp only [hi, ite_true]
      exact emptyCtxUpdate_frame w i
    · simp only [hi, if_neg, Bool.false_eq_true, ite_false]
      rcases hr : (QCommandRuleAction.init mi.command app false).2 with _ | e
      · simp only [hr]
        exact ⟨(emptyCtxUpdate_frame _ i).1, (emptyCtxUpdate_frame _ i).2⟩
      · simp [hr]

theorem init_skip_when_initialized (hashMI : MenuItem → Nat) (w : World)
    (i : Nat) (mi : MenuItem) (app : Application) (inst : MenuInstance)
    (hg : heapGet w.heap i = some inst) (hi : inst.initialized = true) :
    QMenuItemAction.init hashMI w i mi app = QMenuItemAction.emptyCtxUpdate w i := by
  unfold QMenuItemAction.init
  simp [hg, hi]

theorem init_first_run (hashMI : MenuItem → Nat) (w : World) (i : Nat)
    (mi : MenuItem) (app : Application) (inst : MenuInstance)
    (hg : heapGet w.heap i = some inst) (hi : inst.initialized = false)
    (hbody : (QCommandRuleAction.init mi.command app false).2 = none) :
    ∃ inst2, heapGet ((QMenuItemAction.init hashMI w i mi app).1).heap i = some inst2
      ∧ inst2.initialized = true
      ∧ inst2.menu_item = some mi
      ∧ inst2.hookKey = some (app.objId, hashMI mi) := by
  unfold QMenuItemAction.init
  simp only [hg, hi, Bool.false_eq_true, ite_false, hbody]
  obtain ⟨inst2, h2, h3, h4, h5⟩ :=
    emptyCtxUpdate_preserves
      ⟨w.cache, w.nextId,
        heapSet w.heap i ⟨(QCommandRuleAction.init mi.command app false).1, true,
          some mi, some (app.objId, hashMI mi)⟩⟩ i _
      (heapGet_set_self _ _ _)
  exact ⟨inst2, h2, h3, h4, h5⟩

theorem init_err_of_body_ok (hashMI : MenuItem → Nat) (w : World) (i : Nat)
    (mi : MenuItem) (app : Application) (inst : MenuInstance)
    (hg : heapGet w.heap i = some inst)
    (hbody : (QCommandRuleAction.init mi.command app false).2 = none) :
    (QMenuItemAction.init hashMI w i mi app).2 = none := by
  unfold QMenuItemAction.init
  simp only [hg]
  by_cases hi : inst.initialized
  · simp only [hi, ite_true]
    exact emptyCtxUpdate_no_raise w i
  · simp only [hi, Bool.false_eq_true, ite_false, hbody]
    exact emptyCtxUpdate_no_raise _ _

theorem construct_hit (hashMI : MenuItem → Nat) (w : World) (mi : MenuItem)
    (app : Application) (j : Nat)
    (hc : cacheLookup w.cache (app.objId, hashMI mi) = some j) :
    (QMenuItemAction.construct hashMI w mi app true).inst = j
    ∧ ((QMenuItemAction.construct hashMI w mi app true).world).cache = w.cache
    ∧ ((QMenuItemAction.construct hashMI w mi app true).world).nextId = w.nextId := by
  unfold QMenuItemAction.construct QMenuItemAction.new
  simp only [hc]
  exact ⟨by trivial, (init_frame hashMI w j mi app).1,
    (init_frame hashMI w j mi app).2⟩

theorem construct_miss (hashMI : MenuItem → Nat) (w : World) (mi : MenuItem)
    (app : Application)
    (hfresh : cacheLookup w.cache (app.objId, hashMI mi) = none) :
    (QMenuItemAction.construct hashMI w mi app true).inst = w.nextId
    ∧ ((QMenuItemAction.construct hashMI w mi app true).world).cache
        = cacheInsert w.cache (app.objId, hashMI mi) w.nextId
    ∧ ((QMenuItemAction.construct hashMI w mi app true).world).nextId
        = w.nextId + 1 := by
  unfold QMenuItemAction.construct QMenuItemAction.new
  simp only [hfresh]
  exact ⟨by trivial, (init_frame hashMI _ w.nextId mi app).1,
    (init_frame hashMI _ w.nextId mi app).2⟩

theorem construct_nocache (hashMI : MenuItem → Nat) (w : World) (mi : MenuItem)
    (app : Application) :
    (QMenuItemAction.construct hashMI w mi app false).inst = w.nextId
    ∧ ((QMenuItemAction.construct hashMI w mi app false).world).cache = w.cache
    ∧ ((QMenuItemAction.construct hashMI w mi app false).world).nextId
        = w.nextId + 1 := by
  unfold QMenuItemAction.construct QMenuItemAction.new
  exact ⟨rfl, (init_frame hashMI _ w.nextId mi app).1,
    (init_frame hashMI _ w.nextId mi app).2⟩

theorem construct_fresh_instance (hashMI : MenuItem → Nat) (w : World)
    (mi : MenuItem) (app : Application)
    (hfresh : cacheLookup w.cache (app.objId, hashMI mi) = none)
    (hbody : (QCommandRuleAction.init mi.command app false).2 = none) :
    (QMenuItemAction.construct hashMI w mi app true).err = none
    ∧ ∃ inst2,
        heapGet ((QMenuItemAction.construct hashMI w mi app true).world).heap
            (QMenuItemAction.construct hashMI w mi app true).inst = some inst2
        ∧ inst2.initialized = true
        ∧ inst2.menu_item = some mi
        ∧ inst2.hookKey = some (app.objId, hashMI mi) := by
  unfold QMenuItemAction.construct QMenuItemAction.new
  simp only [hfresh]
  constructor
  · exact init_err_of_body_ok hashMI _ w.nextId mi app MenuInstance.blank
      (heapGet_set_self _ _ _) hbody
  · exact init_first_run hashMI _ w.nextId mi app MenuInstance.blank
      (heapGet_set_self _ _ _) rfl hbody

/-! ### Lemmas about the update methods -/

theorem updateToggled_enabled (rule : CommandRule) (a : ActionState) (ctx : Ctx) :
    ((QCommandRuleAction.updateToggled rule a ctx).1).enabled = a.enabled := by
  rcases hrt : rule.toggled with _ | (e | t)
  · simp [QCommandRuleAction.updateToggled, hrt]
  · rcases he : e.eval ctx with n | b <;>
      simp [QCommandRuleAction.updateToggled, hrt, he]
  · rcases hc : t.condition with _ | ce
    · simp [QCommandRuleAction.updateToggled, hrt, hc]
    · rcases he : ce.eval ctx with n | b <;>
        simp [QCommandRuleAction.updateToggled, hrt, hc, he]

theorem update_enabled_some (rule : CommandRule) (a : ActionState) (ctx : Ctx)
    (e : Expr) (b : Bool) (hre : rule.enablement = some e)
    (he : e.eval ctx = .ok b) :
    ((QCommandRuleAction.update_from_context rule a ctx).1).enabled = b := by
  simp [QCommandRuleAction.update_from_context, hre, he, updateToggled_enabled]

theorem update_enabled_none (rule : CommandRule) (a : ActionState) (ctx : Ctx)
    (hre : rule.enablement = none) :
    ((QCommandRuleAction.update_from_context rule a ctx).1).enabled = true := by
  simp [QCommandRuleAction.update_from_context, hre, updateToggled_enabled]

theorem update_checked_of_toggled_expr (rule : CommandRule) (a : ActionState)
    (ctx : Ctx) (E : Expr) (b : Bool) (ht : rule.toggled = some (.expr E))
    (hen : ∀ e, rule.enablement = some e → ∃ bb, e.eval ctx = Except.ok bb)
    (hE : E.eval ctx = .ok b) :
    ((QCommandRuleAction.update_from_context rule a ctx).1).checked = b := by
  rcases hre : rule.enablement with _ | e
  · simp [QCommandRuleAction.update_from_context, hre,
      QCommandRuleAction.updateToggled, ht, hE]
  · obtain ⟨bb, hbb⟩ := hen e hre
    simp [QCommandRuleAction.update_from_context, hre, hbb,
      QCommandRuleAction.updateToggled, ht, hE]

theorem rule_update_provider_only_frame (rule : CommandRule) (t : ToggleRule)
    (a : ActionState) (ctx : Ctx) (ht : rule.toggled = some (.rule t))
    (hc : t.condition = none) :
    ((QCommandRuleAction.update_from_context rule a ctx).1).checked = a.checked
    ∧ ((QCommandRuleAction.update_from_context rule a ctx).1).visible = a.visible
    ∧ ((QCommandRuleAction.update_from_context rule a ctx).1).checkable = a.checkable
    ∧ ((QCommandRuleAction.update_from_context rule a ctx).1).objectName = a.objectName
    ∧ ((QCommandRuleAction.update_from_context rule a ctx).1).text = a.text
    ∧ ((QCommandRuleAction.update_from_context rule a ctx).1).shortcut = a.shortcut
    ∧ ((QCommandRuleAction.update_from_context rule a ctx).1).icon = a.icon
    ∧ ((QCommandRuleAction.update_from_context rule a ctx).1).tooltip = a.tooltip
    ∧ ((QCommandRuleAction.update_from_context rule a ctx).1).status_tip
        = a.status_tip := by
  rcases hre : rule.enablement with _ | e
  · simp [QCommandRuleAction.update_from_context, hre,
      QCommandRuleAction.updateToggled, ht, hc]
  · rcases he : e.eval ctx with n | b <;>
      simp [QCommandRuleAction.update_from_context, hre, he,
        QCommandRuleAction.updateToggled, ht, hc]

theorem menu_update_provider_only_frame (mi : MenuItem) (t : ToggleRule)
    (a : ActionState) (ctx : Ctx) (ht : mi.command.toggled = some (.rule t))
    (hc : t.condition = none) :
    ((QMenuItemAction.update_from_context mi a ctx).1).checked = a.checked
    ∧ ((QMenuItemAction.update_from_context mi a ctx).1).checkable = a.checkable
    ∧ ((QMenuItemAction.update_from_context mi a ctx).1).objectName = a.objectName
    ∧ ((QMenuItemAction.update_from_context mi a ctx).1).text = a.text
    ∧ ((QMenuItemAction.update_from_context mi a ctx).1).shortcut = a.shortcut
    ∧ ((QMenuItemAction.update_from_context mi a ctx).1).icon = a.icon
    ∧ ((QMenuItemAction.update_from_context mi a ctx).1).tooltip = a.tooltip
    ∧ ((QMenuItemAction.update_from_context mi a ctx).1).status_tip
        = a.status_tip := by
  have hf := rule_update_provider_only_frame mi.command t a ctx ht hc
  unfold QMenuItemAction.update_from_context
  rcases hr : QCommandRuleAction.update_from_context mi.command a ctx with ⟨a1, e1⟩
  rw [hr] at hf
  rcases e1 with _ | e
  · rcases hw : mi.when with _ | we
    · simpa [hw] using ⟨hf.1, hf.2.2.1, hf.2.2.2.1, hf.2.2.2.2.1,
        hf.2.2.2.2.2.1, hf.2.2.2.2.2.2.1, hf.2.2.2.2.2.2.2.1,
        hf.2.2.2.2.2.2.2.2⟩
    · rcases he : we.eval ctx with n | b <;>
        simpa [hw, he] using ⟨hf.1, hf.2.2.1, hf.2.2.2.1, hf.2.2.2.2.1,
          hf.2.2.2.2.2.1, hf.2.2.2.2.2.2.1, hf.2.2.2.2.2.2.2.1,
          hf.2.2.2.2.2.2.2.2⟩
  · simpa using ⟨hf.1, hf.2.2.1, hf.2.2.2.1, hf.2.2.2.2.1,
      hf.2.2.2.2.2.1, hf.2.2.2.2.2.2.1, hf.2.2.2.2.2.2.2.1,
      hf.2.2.2.2.2.2.2.2⟩

theorem update_ignores_provider (r : CommandRule) (a : ActionState) (ctx : Ctx)
    (c : Option Expr) (g1 g2 : Option (Unit → Except PyError Bool)) :
    QCommandRuleAction.update_from_context
        { r with toggled := some (.rule { condition := c, get_current := g1 }) }
        a ctx
      = QCommandRuleAction.update_from_context
        { r with toggled := some (.rule { condition := c, get_current := g2 }) }
        a ctx := by
  rcases c with _ | ce <;> rfl

/-! ### Further cache lemmas -/

theorem cachePop_absent (c : Cache) (k : CacheKey)
    (h : cacheLookup c k = none) : cachePop c k = c := by
  induction c with
  | nil => rfl
  | cons e c ih =>
    by_cases hek : e.1 = k
    · exfalso
      simp [cacheLookup, List.find?_cons, hek] at h
    · have ht : cacheLookup c k = none := by
        simpa [cacheLookup, List.find?_cons, hek] using h
      show List.filter _ (e :: c) = e :: c
      rw [List.filter_cons, if_pos (by simp [hek])]
      exact congrArg (e :: ·) (ih ht)

theorem destroy_nextId (w : World) (i : Nat) :
    (QMenuItemAction.destroy w i).nextId = w.nextId := by
  unfold QMenuItemAction.destroy
  rcases hg : heapGet w.heap i with _ | inst
  · rfl
  · rfl

theorem construct_cache_lookup (hashMI : MenuItem → Nat) (w : World)
    (mi : MenuItem) (app : Application) :
    cacheLookup ((QMenuItemAction.construct hashMI w mi app true).world).cache
        (app.objId, hashMI mi)
      = some (QMenuItemAction.construct hashMI w mi app true).inst := by
  rcases hc : cacheLookup w.cache (app.objId, hashMI mi) with _ | j
  · obtain ⟨h1, h2, _⟩ := construct_miss hashMI w mi app hc
    rw [h2, h1, cacheLookup_insert_self]
  · obtain ⟨h1, h2, _⟩ := construct_hit hashMI w mi app j hc
    rw [h2, h1]
    exact hc

/-! ### The claims -/

/-- C3: `update_from_context(ctx)` sets enabled to the enablement expression
evaluated against ctx when one is present and to true otherwise;
independently, when toggled is a bare expression E it sets checked to E's
value under ctx, a second call with a context where E is false sets checked
to false (last-write-wins), and a disabled action may still be checked. -/
theorem claim_C3 :
    (∀ (rule : CommandRule) (a : ActionState) (ctx : Ctx) (e : Expr) (b : Bool),
      rule.enablement = some e → e.eval ctx = .ok b →
      ((QCommandRuleAction.update_from_context rule a ctx).1).enabled = b)
    ∧ (∀ (rule : CommandRule) (a : ActionState) (ctx : Ctx),
      rule.enablement = none →
      ((QCommandRuleAction.update_from_context rule a ctx).1).enabled = true)
    ∧ (∀ (rule : CommandRule) (a : ActionState) (ctx : Ctx) (E : Expr) (b : Bool),
      rule.toggled = some (.expr E) →
      (∀ e, rule.enablement = some e → ∃ bb, e.eval ctx = Except.ok bb) →
      E.eval ctx = .ok b →
      ((QCommandRuleAction.update_from_context rule a ctx).1).checked = b)
    ∧ (∀ (rule : CommandRule) (a : ActionState) (ctx ctx2 : Ctx) (E : Expr),
      rule.toggled = some (.expr E) →
      (∀ e, rule.enablement = some e → ∃ bb, e.eval ctx2 = Except.ok bb) →
      E.eval ctx2 = .ok false →
      ((QCommandRuleAction.update_from_context rule
          ((QCommandRuleAction.update_from_context rule a ctx).1) ctx2).1).checked
        = false)
    ∧ (∃ (rule : CommandRule) (a : ActionState) (ctx : Ctx),
      ((QCommandRuleAction.update_from_context rule a ctx).1).enabled = false
      ∧ ((QCommandRuleAction.update_from_context rule a ctx).1).checked = true) :=
  ⟨fun rule a ctx e b hre he => update_enabled_some rule a ctx e b hre he,
   fun rule a ctx hre => update_enabled_none rule a ctx hre,
   fun rule a ctx E b ht hen hE => update_checked_of_toggled_expr rule a ctx E b ht hen hE,
   fun rule a ctx ctx2 E ht hen hE =>
     update_checked_of_toggled_expr rule
       ((QCommandRuleAction.update_from_context rule a ctx).1) ctx2 E false
       ht hen hE,
   ⟨{ cmd0 with enablement := some (.lit false), toggled := some (.expr (.lit true)) },
    ActionState.fresh, [], rfl, rfl⟩⟩

/-- C3 witness: with toggled = the bare expression `x`, updating under
x = true sets checked, and a second update under x = false clears it. -/
theorem claim_C3_witness :
    ((QCommandRuleAction.update_from_context cmdC3 ActionState.fresh
      [("x", true)]).1).checked = true
    ∧ ((QCommandRuleAction.update_from_context cmdC3
      ((QCommandRuleAction.update_from_context cmdC3 ActionState.fresh
        [("x", true)]).1) [("x", false)]).1).checked = false := by
  have h := claim_C3
  refine ⟨h.2.2.1 cmdC3 ActionState.fresh [("x", true)] (.name "x") true rfl
      (fun e he => by simp [cmdC3, cmd0] at he) rfl,
    h.2.2.2.1 cmdC3 ActionState.fresh [("x", true)] [("x", false)] (.name "x") rfl
      (fun e he => by simp [cmdC3, cmd0] at he) rfl⟩

/-- C5: the empty-context `update_from_context({})` performed at the end of
`QMenuItemAction.__init__` never raises (its only evaluation failures are
NameErrors, which are suppressed), so a construction whose initialization
body succeeds succeeds as a whole. -/
theorem claim_C5 :
    (∀ (w : World) (i : Nat), (QMenuItemAction.emptyCtxUpdate w i).2 = none)
    ∧ (∀ (hashMI : MenuItem → Nat) (w : World) (mi : MenuItem) (app : Application),
      cacheLookup w.cache (app.objId, hashMI mi) = none →
      (QCommandRuleAction.init mi.command app false).2 = none →
      (QMenuItemAction.construct hashMI w mi app true).err = none) :=
  ⟨emptyCtxUpdate_no_raise,
   fun hashMI w mi app hfresh hbody =>
     (construct_fresh_instance hashMI w mi app hfresh hbody).1⟩

/-- C5 witness: constructing a menu item whose `when` expression references a
variable missing from the empty context succeeds anyway. -/
theorem claim_C5_witness :
    (QMenuItemAction.emptyCtxUpdate w0 0).2 = none
    ∧ (QMenuItemAction.construct hash0 w0 miC5 app0 true).err = none :=
  ⟨claim_C5.1 w0 0, claim_C5.2 hash0 w0 miC5 app0 rfl rfl⟩

/-- C6: each activation invokes `execute_command` with exactly the bound
command id exactly once, immediately forces the deferred result, and
propagates its failure unmodified. -/
theorem claim_C6 (command_id : String) (app : Application) :
    (QCommandAction.on_triggered command_id app).1 = [command_id]
    ∧ (QCommandAction.on_triggered command_id app).2
        = (app.commands.run command_id).result
    ∧ (∀ e : PyError, (app.commands.run command_id).result = .error e →
        (QCommandAction.on_triggered command_id app).2 = .error e) :=
  ⟨rfl, rfl, fun _ he => he⟩

/-- C6 witness: on an application whose command execution fails, activation
logs exactly one invocation and the failure propagates unchanged. -/
theorem claim_C6_witness :
    (QCommandAction.on_triggered "cmd" appFail).1 = ["cmd"]
    ∧ (QCommandAction.on_triggered "cmd" appFail).2 = .error (.other "fail") := by
  have h := claim_C6 "cmd" appFail
  exact ⟨h.1, h.2.2 (.other "fail") rfl⟩

/-- C8: a ToggleRule carrying a `get_current` provider makes construction mark
the action checkable and set initial checked from the injected provider's
boolean result, and `update_from_context` never consults the provider (its
result is independent of `get_current`). -/
theorem claim_C8 (rule : CommandRule) (app : Application) (t : ToggleRule)
    (g : Unit → Except PyError Bool) (b : Bool) (ust : Bool)
    (ht : rule.toggled = some (.rule t)) (hg : t.get_current = some g)
    (hb : app.inject g () = .ok b) :
    (((QCommandRuleAction.init rule app ust).1).checkable = true
      ∧ ((QCommandRuleAction.init rule app ust).1).checked = b
      ∧ (QCommandRuleAction.init rule app ust).2 = none)
    ∧ (∀ (r : CommandRule) (a : ActionState) (ctx : Ctx) (c : Option Expr)
        (g1 g2 : Option (Unit → Except PyError Bool)),
      QCommandRuleAction.update_from_context
          { r with toggled := some (.rule { condition := c, get_current := g1 }) }
          a ctx
        = QCommandRuleAction.update_from_context
          { r with toggled := some (.rule { condition := c, get_current := g2 }) }
          a ctx) := by
  constructor
  · unfold QCommandRuleAction.init QCommandRuleAction.refresh
    simp [ht, hg, hb]
  · exact fun r a ctx c g1 g2 => update_ignores_provider r a ctx c g1 g2

/-- C8 witness: a provider-only toggle rule whose provider returns true yields
a checkable action initially checked, and updates are provider-independent. -/
theorem claim_C8_witness :
    (((QCommandRuleAction.init cmdC8 app0 false).1).checkable = true
      ∧ ((QCommandRuleAction.init cmdC8 app0 false).1).checked = true)
    ∧ QCommandRuleAction.update_from_context cmdC8 ActionState.fresh []
      = QCommandRuleAction.update_from_context cmdProvB ActionState.fresh [] := by
  have h := claim_C8 cmdC8 app0 tRuleProv (fun _ => Except.ok true) true false
    rfl rfl rfl
  exact ⟨⟨h.1.1, h.1.2.1⟩,
    h.2 cmdC8 ActionState.fresh [] none (some (fun _ => Except.ok true)) none⟩

/-- C9: for a provider-only toggle rule (condition absent),
`update_from_context` leaves checked unchanged and modifies only the enabled
state (and, in the menu-item subclass, the visible state): every other field
is preserved. -/
theorem claim_C9 (rule : CommandRule) (t : ToggleRule) (a : ActionState)
    (ctx : Ctx) (mi : MenuItem) (ht : rule.toggled = some (.rule t))
    (hc : t.condition = none) (hmi : mi.command = rule) :
    (((QCommandRuleAction.update_from_context rule a ctx).1).checked = a.checked
      ∧ ((QCommandRuleAction.update_from_context rule a ctx).1).visible = a.visible
      ∧ ((QCommandRuleAction.update_from_context rule a ctx).1).checkable = a.checkable
      ∧ ((QCommandRuleAction.update_from_context rule a ctx).1).objectName = a.objectName
      ∧ ((QCommandRuleAction.update_from_context rule a ctx).1).text = a.text
      ∧ ((QCommandRuleAction.update_from_context rule a ctx).1).shortcut = a.shortcut
      ∧ ((QCommandRuleAction.update_from_context rule a ctx).1).icon = a.icon
      ∧ ((QCommandRuleAction.update_from_context rule a ctx).1).tooltip = a.tooltip
      ∧ ((QCommandRuleAction.update_from_context rule a ctx).1).status_tip = a.status_tip)
    ∧ (((QMenuItemAction.update_from_context mi a ctx).1).checked = a.checked
      ∧ ((QMenuItemAction.update_from_context mi a ctx).1).checkable = a.checkable
      ∧ ((QMenuItemAction.update_from_context mi a ctx).1).objectName = a.objectName
      ∧ ((QMenuItemAction.update_from_context mi a ctx).1).text = a.text
      ∧ ((QMenuItemAction.update_from_context mi a ctx).1).shortcut = a.shortcut
      ∧ ((QMenuItemAction.update_from_context mi a ctx).1).icon = a.icon
      ∧ ((QMenuItemAction.update_from_context mi a ctx).1).tooltip = a.tooltip
      ∧ ((QMenuItemAction.update_from_context mi a ctx).1).status_tip = a.status_tip) :=
  ⟨rule_update_provider_only_frame rule t a ctx ht hc,
   menu_update_provider_only_frame mi t a ctx (hmi ▸ ht) hc⟩

/-- C9 witness: updating a provider-only toggled action from a context leaves
its checked state (and the other presentation fields) unchanged. -/
theorem claim_C9_witness :
    ((QCommandRuleAction.update_from_context cmdC8 ActionState.fresh
      [("x", true)]).1).checked = ActionState.fresh.checked
    ∧ ((QMenuItemAction.update_from_context miC9 ActionState.fresh
      [("x", true)]).1).checked = ActionState.fresh.checked := by
  have h := claim_C9 cmdC8 tRuleProv ActionState.fresh [("x", true)] miC9
    rfl rfl rfl
  exact ⟨h.1.1, h.2.1⟩

/-- C1: with caching enabled, two constructions with the same (application
identity, menu-item hash) key return the identical instance; with caching
disabled, construction returns the fresh allocation-counter instance without
consulting the cache, hence an instance distinct from any cached one. -/
theorem claim_C1 (hashMI : MenuItem → Nat) (w : World) (mi : MenuItem)
    (app : Application) (hW : w.WF) :
    (∀ (mi2 : MenuItem) (app2 : Application),
      (app2.objId, hashMI mi2) = (app.objId, hashMI mi) →
      (QMenuItemAction.construct hashMI
          (QMenuItemAction.construct hashMI w mi app true).world mi2 app2 true).inst
        = (QMenuItemAction.construct hashMI w mi app true).inst)
    ∧ (∀ (w2 : World) (mi2 : MenuItem) (app2 : Application),
      (QMenuItemAction.construct hashMI w2 mi2 app2 false).inst = w2.nextId)
    ∧ (∀ j, cacheLookup w.cache (app.objId, hashMI mi) = some j →
      (QMenuItemAction.construct hashMI w mi app false).inst ≠ j) := by
  refine ⟨?_, ?_, ?_⟩
  · intro mi2 app2 hkey
    have hlk2 : cacheLookup
        ((QMenuItemAction.construct hashMI w mi app true).world).cache
        (app2.objId, hashMI mi2)
      = some (QMenuItemAction.construct hashMI w mi app true).inst := by
      rw [hkey]
      exact construct_cache_lookup hashMI w mi app
    exact (construct_hit hashMI _ mi2 app2 _ hlk2).1
  · intro w2 mi2 app2
    exact (construct_nocache hashMI w2 mi2 app2).1
  · intro j hj
    rw [(construct_nocache hashMI w mi app).1]
    exact ne_of_gt (hW _ _ hj)

/-- C1 witness: in the empty world, constructing twice with caching returns
the same instance, and a cache-disabled construction allocates afresh. -/
theorem claim_C1_witness :
    (QMenuItemAction.construct hash0
        (QMenuItemAction.construct hash0 w0 mi0 app0 true).world mi0 app0 true).inst
      = (QMenuItemAction.construct hash0 w0 mi0 app0 true).inst
    ∧ (QMenuItemAction.construct hash0 w0 mi0 app0 false).inst = w0.nextId := by
  have h := claim_C1 hash0 w0 mi0 app0
    (by intro k i hk; simp [w0, cacheLookup] at hk)
  exact ⟨h.1 mi0 app0 rfl, h.2.1 w0 mi0 app0⟩

/-- C2: the initialization body runs exactly once per instance: on an
initialized instance `__init__` is exactly the empty-context update, a first
successful run stores the menu item and hook key and sets the flag, and the
empty-context update preserves the flag, the stored menu item and the hook
key — so later `__init__` calls skip the body. -/
theorem claim_C2 :
    (∀ (hashMI : MenuItem → Nat) (w : World) (i : Nat) (mi : MenuItem)
       (app : Application) (inst : MenuInstance),
      heapGet w.heap i = some inst → inst.initialized = true →
      QMenuItemAction.init hashMI w i mi app = QMenuItemAction.emptyCtxUpdate w i)
    ∧ (∀ (hashMI : MenuItem → Nat) (w : World) (i : Nat) (mi : MenuItem)
       (app : Application) (inst : MenuInstance),
      heapGet w.heap i = some inst → inst.initialized = false →
      (QCommandRuleAction.init mi.command app false).2 = none →
      ∃ inst2,
        heapGet ((QMenuItemAction.init hashMI w i mi app).1).heap i = some inst2
        ∧ inst2.initialized = true ∧ inst2.menu_item = some mi
        ∧ inst2.hookKey = some (app.objId, hashMI mi))
    ∧ (∀ (w : World) (i : Nat) (inst : MenuInstance),
      heapGet w.heap i = some inst →
      ∃ inst2,
        heapGet ((QMenuItemAction.emptyCtxUpdate w i).1).heap i = some inst2
        ∧ inst2.initialized = inst.initialized
        ∧ inst2.menu_item = inst.menu_item
        ∧ inst2.hookKey = inst.hookKey) :=
  ⟨init_skip_when_initialized, init_first_run, emptyCtxUpdate_preserves⟩

/-- C2 witness: re-initializing the already-initialized cached instance is
exactly the empty-context update (the body is skipped). -/
theorem claim_C2_witness :
    QMenuItemAction.init hash0 wC2 0 mi0 app0
      = QMenuItemAction.emptyCtxUpdate wC2 0 :=
  claim_C2.1 hash0 wC2 0 mi0 app0 instC2 rfl rfl

/-- C4: after the instance from a successful fresh cached construction is
destroyed — or after the owning application's destruction hook fires — the
cache entry for its key is gone; removal tolerates an already absent key; and
a subsequent cached construction with the same key yields a different
instance. -/
theorem claim_C4 (hashMI : MenuItem → Nat) (w : World) (mi : MenuItem)
    (app : Application)
    (hfresh : cacheLookup w.cache (app.objId, hashMI mi) = none)
    (hbody : (QCommandRuleAction.init mi.command app false).2 = none) :
    cacheLookup (QMenuItemAction.destroy
        (QMenuItemAction.construct hashMI w mi app true).world
        (QMenuItemAction.construct hashMI w mi app true).inst).cache
      (app.objId, hashMI mi) = none
    ∧ cacheLookup (QMenuItemAction.appDestroyHook
        (QMenuItemAction.construct hashMI w mi app true).world
        (app.objId, hashMI mi)).cache (app.objId, hashMI mi) = none
    ∧ (∀ (c : Cache) (k : CacheKey), cacheLookup c k = none → cachePop c k = c)
    ∧ (QMenuItemAction.construct hashMI
        (QMenuItemAction.destroy
          (QMenuItemAction.construct hashMI w mi app true).world
          (QMenuItemAction.construct hashMI w mi app true).inst) mi app true).inst
      ≠ (QMenuItemAction.construct hashMI w mi app true).inst := by
  obtain ⟨herr, inst2, hg2, hini2, hmi2, hkk2⟩ :=
    construct_fresh_instance hashMI w mi app hfresh hbody
  have hdc : (QMenuItemAction.destroy
      (QMenuItemAction.construct hashMI w mi app true).world
      (QMenuItemAction.construct hashMI w mi app true).inst).cache
    = cachePop ((QMenuItemAction.construct hashMI w mi app true).world).cache
        (app.objId, hashMI mi) := by
    unfold QMenuItemAction.destroy
    simp only [hg2, hkk2]
  have h1 : cacheLookup (QMenuItemAction.destroy
      (QMenuItemAction.construct hashMI w mi app true).world
      (QMenuItemAction.construct hashMI w mi app true).inst).cache
      (app.objId, hashMI mi) = none := by
    rw [hdc, cacheLookup_pop_self]
  refine ⟨h1, ?_, cachePop_absent, ?_⟩
  · unfold QMenuItemAction.appDestroyHook
    exact cacheLookup_pop_self _ _
  · rw [(construct_miss hashMI _ mi app h1).1, destroy_nextId,
      (construct_miss hashMI w mi app hfresh).2.2,
      (construct_miss hashMI w mi app hfresh).1]
    omega

/-- C4 witness: a concrete cached construction, destroyed, leaves no cache
entry, and reconstruction yields a different instance. -/
theorem claim_C4_witness :
    cacheLookup (QMenuItemAction.destroy
        (QMenuItemAction.construct hash0 w0 mi0 app0 true).world
        (QMenuItemAction.construct hash0 w0 mi0 app0 true).inst).cache
      (app0.objId, hash0 mi0) = none
    ∧ (QMenuItemAction.construct hash0
        (QMenuItemAction.destroy
          (QMenuItemAction.construct hash0 w0 mi0 app0 true).world
          (QMenuItemAction.construct hash0 w0 mi0 app0 true).inst) mi0 app0 true).inst
      ≠ (QMenuItemAction.construct hash0 w0 mi0 app0 true).inst := by
  have h := claim_C4 hash0 w0 mi0 app0 rfl rfl
  exact ⟨h.1, h.2.2.2⟩

/-- C10: when the initialization body of a fresh cached construction raises,
the exception propagates out of the construction unmodified, while the new
instance — registered in the cache by the allocation step — remains cached
under its key (the insertion is not rolled back). -/
theorem claim_C10 (hashMI : MenuItem → Nat) (w : World) (mi : MenuItem)
    (app : Application) (e : PyError)
    (hfresh : cacheLookup w.cache (app.objId, hashMI mi) = none)
    (hfail : (QCommandRuleAction.init mi.command app false).2 = some e) :
    (QMenuItemAction.construct hashMI w mi app true).err = some e
    ∧ cacheLookup ((QMenuItemAction.construct hashMI w mi app true).world).cache
        (app.objId, hashMI mi)
      = some (QMenuItemAction.construct hashMI w mi app true).inst := by
  refine ⟨?_, construct_cache_lookup hashMI w mi app⟩
  unfold QMenuItemAction.construct QMenuItemAction.new QMenuItemAction.init
  simp only [hfresh]
  simp only [heapGet_set_self]
  simp [MenuInstance.blank, hfail]

/-- C10 witness: a provider that raises at construction time propagates its
exception while the instance stays cached. -/
theorem claim_C10_witness :
    (QMenuItemAction.construct hash0 w0 miC10 app0 true).err = some (.other "boom")
    ∧ cacheLookup ((QMenuItemAction.construct hash0 w0 miC10 app0 true).world).cache
        (app0.objId, hash0 miC10)
      = some (QMenuItemAction.construct hash0 w0 miC10 app0 true).inst :=
  claim_C10 hash0 w0 miC10 app0 (.other "boom") rfl rfl

/-- C7 counterexample: `miC7` has `when` = the constant false and a command
with no enablement expression — exactly the claim's hypotheses — yet
immediately after a successful construction its visible flag is true, not
false: the command's toggled expression references a variable missing from
the empty context, so the suppressed NameError aborts the update before the
visibility assignment runs. -/
theorem claim_C7_counterexample :
    miC7.when = some (.lit false)
    ∧ miC7.command.enablement = none
    ∧ (QMenuItemAction.construct hash0 w0 miC7 app0 true).err = none
    ∧ ((heapGet ((QMenuItemAction.construct hash0 w0 miC7 app0 true).world).heap
          (QMenuItemAction.construct hash0 w0 miC7 app0 true).inst).map
        (fun x => x.state.visible)) = some true :=
  ⟨rfl, rfl, rfl, rfl⟩

/-- C7 (amended): for a menu item whose `when` expression is the constant
false, whose command has no enablement expression and — as the counterexample
forces — no toggled expression either, immediately after construction the
action is invisible while enabled. -/
theorem claim_C7 (hashMI : MenuItem → Nat) (w : World) (mi : MenuItem)
    (app : Application)
    (hfresh : cacheLookup w.cache (app.objId, hashMI mi) = none)
    (hwhen : mi.when = some (.lit false))
    (hen : mi.command.enablement = none)
    (htog : mi.command.toggled = none) :
    (QMenuItemAction.construct hashMI w mi app true).err = none
    ∧ ((heapGet ((QMenuItemAction.construct hashMI w mi app true).world).heap
          (QMenuItemAction.construct hashMI w mi app true).inst).map
        (fun x => x.state.visible)) = some false
    ∧ ((heapGet ((QMenuItemAction.construct hashMI w mi app true).world).heap
          (QMenuItemAction.construct hashMI w mi app true).inst).map
        (fun x => x.state.enabled)) = some true := by
  have hbody := ruleInit_err_no_toggled mi.command app false htog
  refine ⟨(construct_fresh_instance hashMI w mi app hfresh hbody).1, ?_, ?_⟩ <;>
  · unfold QMenuItemAction.construct QMenuItemAction.new QMenuItemAction.init
      QMenuItemAction.emptyCtxUpdate QMenuItemAction.update_from_context
      QCommandRuleAction.update_from_context QCommandRuleAction.updateToggled
    simp only [hfresh]
    simp only [heapGet_set_self, MenuInstance.blank, hbody, hen, htog, hwhen,
      Expr.eval]
    simp [heapGet_set_self]

/-- C7 witness: a concrete menu item with constant-false `when` over a plain
command is constructed invisible and enabled. -/
theorem claim_C7_witness :
    (QMenuItemAction.construct hash0 w0 miC7ok app0 true).err = none
    ∧ ((heapGet ((QMenuItemAction.construct hash0 w0 miC7ok app0 true).world).heap
          (QMenuItemAction.construct hash0 w0 miC7ok app0 true).inst).map
        (fun x => x.state.visible)) = some false
    ∧ ((heapGet ((QMenuItemAction.construct hash0 w0 miC7ok app0 true).world).heap
          (QMenuItemAction.construct hash0 w0 miC7ok app0 true).inst).map
        (fun x => x.state.enabled)) = some true :=
  claim_C7 hash0 w0 miC7ok app0 rfl rfl rfl rfl
